import Mathlib

/-!
Verification of the rule-to-behavior compiler in
`packages/cody/src/lib/hooks/utils/rule-engine/convert-rule-config-to-behavior.ts`.

The TypeScript unit translates a JSON-shaped rule configuration into generated
statement lines for an aggregate behavior function.  Every function of the
source file is embedded below; the external collaborators that the source
imports (the cody-types response type, the graph helpers detectService and
getTargetsOfType, the identifier deriver names, and JSON.stringify) are kept
opaque as fields of an environment record, exactly as the design treats them:
interfaces consumed, not reimplemented.

The union return type `boolean | CodyResponse` (respectively
`string | CodyResponse`) of the source, together with the isCodyError check at
every call site, is embedded as `Except CodyResponse _`: the source never
throws, it returns the first diagnostic it meets.

The mutation of the shared `lines` array by `lines.push` is embedded by
explicit state passing: every translation function receives the current list
of emitted lines and returns the extended list on success.
-/

namespace RuleEngine

/-- Severity levels of a cody response.  Modelled from the external
cody-types package; only the value written by this source file, Error,
matters to the proofs. -/
inductive CodyResponseType where
  | Info
  | Error
  | Warning
  | Question
deriving DecidableEq, Repr

/-- The diagnostic value returned by every failing translation step:
a human readable message, a severity and a details text.  Matches the object
literals constructed in the source. -/
structure CodyResponse where
  cody : String
  type : CodyResponseType
  details : String
deriving DecidableEq, Repr

/-- A node of the external modeling graph.  Only the two accessors the
source calls, getName and getType, are represented. -/
structure Node where
  name : String
  nodeType : String
deriving DecidableEq, Repr

/-- The identifier forms produced by the external names helper.  Only the
two forms read by the source, className and propertyName, are represented. -/
structure NameForms where
  className : String
  propertyName : String
deriving DecidableEq, Repr

/-- The mapping part of a record-event action: either a single expression
string, or a property mapping.  A PropMapping is a JavaScript object from
output field name to expression source; it is embedded as an association
list in declaration order, which is the iteration order of a for-in loop
over its (non numeric) keys. -/
inductive Mapping where
  | expr (e : String)
  | props (entries : List (String × String))
deriving DecidableEq, Repr

mutual

/-- A rule of the configuration, as the source reads it: the rule kind tag
(field `rule`), the optional `if` and `if_not` condition expressions, the
`stop` flag and the `then` part.  The shape guards isIfConditionRule and
isIfNotConditionRule of the imported configuration module (not part of the
sources at hand) are modelled from the spec: a condition rule carries one of
the two condition fields, and the guard tests whether the field is set. -/
inductive Rule where
  | mk (rule : String) (ifExpr : Option String) (ifNotExpr : Option String)
       (stop : Bool) (th : Then)

/-- The then part of a rule, as discriminated by the shape guards
isRecordEvent and isExecuteRules: a record-event action (event name and
mapping), a nested execute-rules action, or an unrecognized shape, which the
source answers with a diagnostic in the default branch of convertThen. -/
inductive Then where
  | recordEvent (event : String) (mapping : Mapping)
  | executeRules (rules : RuleList)
  | unknownThen

/-- A list of rules.  A separate inductive (rather than List Rule) keeps the
mutual recursion of rules and nested rule lists structural. -/
inductive RuleList where
  | nil
  | cons (head : Rule) (tail : RuleList)

end

/-- The kind tag of a rule (source field rule.rule). -/
def Rule.rule : Rule → String
  | .mk k _ _ _ _ => k

/-- The optional if condition of a rule (source field rule.if). -/
def Rule.ifExpr : Rule → Option String
  | .mk _ i _ _ _ => i

/-- The optional if_not condition of a rule (source field rule.if_not). -/
def Rule.ifNotExpr : Rule → Option String
  | .mk _ _ i _ _ => i

/-- The stop flag of a rule (source field rule.stop). -/
def Rule.stop : Rule → Bool
  | .mk _ _ _ s _ => s

/-- The then part of a rule (source field rule.then). -/
def Rule.th : Rule → Then
  | .mk _ _ _ _ t => t

/-- An initial variable declaration, exactly the exported Variable interface
of the source: a name and an initializer source string. -/
structure Variable where
  name : String
  initializer : String
deriving DecidableEq, Repr

/-- The environment of external collaborators consumed by the source file:
the context object plus the imported helpers.

* names: the identifier deriver of the messaging helpers.
* detectService: resolves the owning service of a node; partial application
  of the imported detectService to the context argument.
* getTargetsOfType: the call getTargetsOfType(node, NodeType.event, true) of
  the graph helper, returning the declared event targets of the node.
* jsonStringify: the JSON.stringify rendering of a rule, used inside
  diagnostic texts.

All of these are opaque to the compiler; the theorems quantify over them. -/
structure Env where
  names : String → NameForms
  detectService : Node → Except CodyResponse String
  getTargetsOfType : Node → Except CodyResponse (List Node)
  jsonStringify : Rule → String

/-- Source function wrapExpression: wraps an expression source string into
an awaited jexl evaluation against the ctx namespace. -/
def wrapExpression (expr : String) : String :=
  "await jexl.eval(\"" ++ expr ++ "\", ctx)"

/-- Source function convertMapping: a string mapping becomes one wrapped
expression; a property mapping becomes an object literal with one line per
property, built by the for-in loop in declaration order.  The node and rule
parameters are unused by the source as well. -/
def convertMapping (_node : Node) (_env : Env) (mapping : Mapping)
    (_rule : Rule) (indent : String) : Except CodyResponse String :=
  match mapping with
  | .expr s => .ok (wrapExpression s)
  | .props entries =>
    let propMap := "\x7b\n"
    let propMap := entries.foldl
      (fun acc p => acc ++ indent ++ "  \"" ++ p.1 ++ "\": " ++ wrapExpression p.2 ++ ",\n")
      propMap
    .ok (propMap ++ indent ++ "\x7d")

/-- Source function convertThenRecordEvent: resolves the owning service,
rejects event names containing a dot, looks up the declared event targets,
checks membership by className comparison, converts the mapping and emits
the yield line.  The source computes the parts with the JavaScript call
then.record.event.split(per-dot) and only tests parts.length; the split is
embedded over the character list of the string (List.splitOn on the dot
character), which computes the same parts and keeps the definition
evaluable by the kernel. -/
def convertThenRecordEvent (node : Node) (env : Env) (eventName : String)
    (mapping : Mapping) (rule : Rule) (lines : List String) (indent : String) :
    Except CodyResponse (List String) :=
  let _aggregateNames := env.names node.name
  match env.detectService node with
  | .error e => .error e
  | .ok service =>
    let eventNameParts := (eventName.toList.splitOn '.').map List.asString
    let eventNames := env.names eventName
    if eventNameParts.length > 1 then
      .error ⟨"Please don\x27t use a dot in the event name of a record:event rule. I found one in the rule: "
                ++ env.jsonStringify rule ++ " of aggregate \"" ++ node.name ++ "\"",
              .Error,
              "You don\x27t have to provide the full event name including service and aggregate. I\x27m using service \""
                ++ service ++ "\" and aggregate name: \"" ++ node.name ++ "\" for that event."⟩
    else
      match env.getTargetsOfType node with
      | .error e => .error e
      | .ok events =>
        let eventExists := events.any
          (fun evt => (env.names evt.name).className == eventNames.className)
        if !eventExists then
          .error ⟨"The event \"" ++ eventName ++ "\" specified in the rule: "
                    ++ env.jsonStringify rule ++ " of aggregate \"" ++ node.name
                    ++ "\" is not known for that aggregate",
                  .Error,
                  "An aggregate can only record events that are connected to it with an arrow pointing from the aggregate to the event."⟩
        else
          match convertMapping node env mapping rule indent with
          | .error e => .error e
          | .ok m =>
            .ok (lines ++ [indent ++ "yield " ++ eventNames.propertyName ++ "(" ++ m ++ ");"])
/-- The diagnostic of the default branch of convertRule: an unknown rule
kind, as written in the source (note that the details text advertises the
kind validate although the switch has no case for it). -/
def unknownRuleTypeDiag (other : String) : CodyResponse :=
  ⟨"I don\x27t know how to handle a rule of type \"" ++ other ++ "\".",
   .Error,
   "Looks like a typo on your side. I can handle the following rule types: always, condition, validate"⟩

/-- The structural diagnostic of convertConditionRule for a condition rule
with neither an if nor an if_not condition, as written in the source. -/
def missingConditionDiag (node : Node) (env : Env) (r : Rule) : CodyResponse :=
  ⟨"I don\x27t know how to handle a condition rule that neither has an \"if\" nor a \"if_not\" condition defined: \""
     ++ env.jsonStringify r ++ "\".",
   .Error,
   "Looks like a mistake on your side. Please check the rules of "
     ++ node.nodeType ++ ": \"" ++ node.name ++ "\""⟩

/-- The diagnostic of the default branch of convertThen: an unrecognized
then shape, as written in the source (the details text advertises six
action kinds of which only record event and execute rules have cases). -/
def unknownThenDiag (env : Env) (r : Rule) : CodyResponse :=
  ⟨"I don\x27t know the \"then\" part of that rule: " ++ env.jsonStringify r ++ ".",
   .Error,
   "Looks like a typo on your side. I can only perform the actions: record: event, throw: error, assign: variable, trigger: command, perform: query, execute: rules"⟩

mutual

/-- The recursion engine of the translation: the bodies of convertRule,
convertAlwaysRule, convertConditionRule and convertThen inlined into one
function, so that the recursion of the source (rules containing nested rule
lists containing rules) becomes structural over the mutual family
Rule, Then, RuleList.  The source-named functions below have exactly the
shape of the source and are definitionally equal to this engine
(theorem convertRule_eq_core). -/
def convertRuleCore (node : Node) (env : Env) (r : Rule) (lines : List String)
    (indent : String) : Except CodyResponse (List String) :=
  match r with
  | .mk k i1 i2 st th =>
    match k with
    | "always" => convertThenCore node env (.mk k i1 i2 st th) th lines indent
    | "condition" =>
      let polarity : Option (String × String) :=
        match i1 with
        | some e => some ("if (", e)
        | none =>
          match i2 with
          | some e => some ("if (!", e)
          | none => none
      match polarity with
      | none => .error (missingConditionDiag node env (.mk k i1 i2 st th))
      | some (ifCondition, expr) =>
        let lines := lines ++ [indent ++ ifCondition ++ "(" ++ wrapExpression expr ++ ")) \x7b"]
        match convertThenCore node env (.mk k i1 i2 st th) th lines (indent ++ "  ") with
        | .error e => .error e
        | .ok ls =>
          let ls := if st then ls ++ [indent ++ "  return;"] else ls
          .ok (ls ++ [indent ++ "\x7d"])
    | other => .error (unknownRuleTypeDiag other)

/-- The then dispatch of the engine: the body of convertThen, with the then
part passed as the structural recursion argument (it is the then part of the
rule argument, which is passed along unchanged for the diagnostic texts). -/
def convertThenCore (node : Node) (env : Env) (r : Rule) (th : Then)
    (lines : List String) (indent : String) : Except CodyResponse (List String) :=
  match th with
  | .recordEvent ev mp => convertThenRecordEvent node env ev mp r lines indent
  | .executeRules rs => convertRulesCore node env rs lines indent
  | .unknownThen => .error (unknownThenDiag env r)

/-- The rule list loop of the engine: the body of convertThenExecuteRules. -/
def convertRulesCore (node : Node) (env : Env) (rules : RuleList)
    (lines : List String) (indent : String) : Except CodyResponse (List String) :=
  match rules with
  | .nil => .ok lines
  | .cons r rs =>
    match convertRuleCore node env r lines indent with
    | .error e => .error e
    | .ok lines2 => convertRulesCore node env rs lines2 indent

end

/-- Source function convertThenExecuteRules: translate the nested rules in
order, returning the first diagnostic; each nested rule goes through the
full rule dispatch (theorem convertThenExecuteRules_cons below restates
this definition as the recursive equation of the source, with convertRule
in the loop body). -/
def convertThenExecuteRules (node : Node) (env : Env) (rules : RuleList)
    (lines : List String) (indent : String) : Except CodyResponse (List String) :=
  convertRulesCore node env rules lines indent

/-- Source function convertThen: dispatch on the shape of the then part;
an unrecognized shape produces the diagnostic of the default branch. -/
def convertThen (node : Node) (env : Env) (r : Rule) (lines : List String)
    (indent : String) : Except CodyResponse (List String) :=
  match r with
  | .mk k i1 i2 st th =>
    match th with
    | .recordEvent ev mp =>
      convertThenRecordEvent node env ev mp (.mk k i1 i2 st th) lines indent
    | .executeRules rs => convertThenExecuteRules node env rs lines indent
    | .unknownThen => .error (unknownThenDiag env (.mk k i1 i2 st th))

/-- Source function convertAlwaysRule: delegates to convertThen. -/
def convertAlwaysRule (node : Node) (env : Env) (r : Rule) (lines : List String)
    (indent : String) : Except CodyResponse (List String) :=
  convertThen node env r lines indent

/-- Source function convertConditionRule: determine the polarity from which
of the two condition fields is present (if checked first), push the head
line with the wrapped expression, translate the then part at increased
indentation, append the return line when stop is set, and close the brace.
When neither condition field is present, return the structural diagnostic. -/
def convertConditionRule (node : Node) (env : Env) (r : Rule)
    (lines : List String) (indent : String) : Except CodyResponse (List String) :=
  let polarity : Option (String × String) :=
    match r.ifExpr with
    | some e => some ("if (", e)
    | none =>
      match r.ifNotExpr with
      | some e => some ("if (!", e)
      | none => none
  match polarity with
  | none => .error (missingConditionDiag node env r)
  | some (ifCondition, expr) =>
    let lines := lines ++ [indent ++ ifCondition ++ "(" ++ wrapExpression expr ++ ")) \x7b"]
    match convertThen node env r lines (indent ++ "  ") with
    | .error e => .error e
    | .ok ls =>
      let ls := if r.stop then ls ++ [indent ++ "  return;"] else ls
      .ok (ls ++ [indent ++ "\x7d"])

/-- Source function convertRule: dispatch on the rule kind tag; unknown
kinds produce the diagnostic of the default branch. -/
def convertRule (node : Node) (env : Env) (r : Rule) (lines : List String)
    (indent : String) : Except CodyResponse (List String) :=
  match r.rule with
  | "always" => convertAlwaysRule node env r lines indent
  | "condition" => convertConditionRule node env r lines indent
  | other => .error (unknownRuleTypeDiag other)

/-- The for-of loop of convertRuleConfigToAggregateBehavior: before each
rule a blank line is pushed, then the rule is translated, returning the
first diagnostic. -/
def convertTopRules (node : Node) (env : Env) (rules : RuleList)
    (lines : List String) (indent : String) : Except CodyResponse (List String) :=
  match rules with
  | .nil => .ok lines
  | .cons r rs =>
    match convertRule node env r (lines ++ [""]) indent with
    | .error e => .error e
    | .ok ls => convertTopRules node env rs ls indent

/-- Source function convertRuleConfigToAggregateBehavior: the exported
compile entry point.  Empty rule list: the empty string.  Otherwise: the ctx
namespace declaration, one assignment line per initial variable with the
initializer spliced verbatim, the translated rules each preceded by a blank
line, a final blank line, joined with newlines. -/
def convertRuleConfigToAggregateBehavior (aggregate : Node) (env : Env)
    (rules : RuleList) (initialVariables : List Variable) (indent : String) :
    Except CodyResponse String :=
  match rules with
  | .nil => .ok ""
  | .cons r rs =>
    let lines : List String := [indent ++ "const ctx: any = \x7b\x7d;"]
    let lines := lines ++ initialVariables.map
      (fun v => indent ++ "ctx[\x27" ++ v.name ++ "\x27] = " ++ v.initializer ++ ";")
    match convertTopRules aggregate env (.cons r rs) lines indent with
    | .error e => .error e
    | .ok ls => .ok (String.intercalate "\n" (ls ++ [""]))

/-- Embeds a Lean list of rules as a RuleList. -/
def RuleList.ofList : List Rule → RuleList
  | [] => .nil
  | r :: rs => .cons r (RuleList.ofList rs)

/-- A sample environment for concrete evaluations: the identifier deriver is
the identity on both forms, the owning service is CrmService, the single
declared event target is UserRegistered, and rules render as the fixed text
lt-rule-gt. -/
def sampleEnv : Env :=
  ⟨fun s => ⟨s, s⟩, fun _ => .ok "CrmService",
   fun _ => .ok [⟨"UserRegistered", "event"⟩], fun _ => "<rule>"⟩

/-- A sample aggregate node for concrete evaluations. -/
def sampleNode : Node := ⟨"User", "aggregate"⟩

/-- Source function convertThen agrees with the then dispatch of the
engine: branch by branch the two are the same code. -/
theorem convertThen_eq_core (node : Node) (env : Env) (k : String)
    (i1 i2 : Option String) (st : Bool) (th : Then) (lines : List String)
    (indent : String) :
    convertThen node env (.mk k i1 i2 st th) lines indent =
      convertThenCore node env (.mk k i1 i2 st th) th lines indent := by
  cases th <;> rfl

/-- The engine and the source-named dispatch are the same function: the
source-named definitions unfold to the inlined engine case by case. -/
theorem convertRule_eq_core (node : Node) (env : Env) (r : Rule)
    (lines : List String) (indent : String) :
    convertRule node env r lines indent = convertRuleCore node env r lines indent := by
  cases r with
  | mk k i1 i2 st th =>
    simp only [convertRule, convertRuleCore, Rule.rule]
    split
    · exact convertThen_eq_core node env "always" i1 i2 st th lines indent
    · unfold convertConditionRule
      simp only [Rule.ifExpr, Rule.ifNotExpr, Rule.stop]
      cases i1 with
      | some e => simp only [convertThen_eq_core]
      | none =>
        cases i2 with
        | some e => simp only [convertThen_eq_core]
        | none => rfl
    · rfl

/-- The recursive equation of the source for convertThenExecuteRules: the
loop translates the head rule with convertRule and continues with the
extended lines, returning the first diagnostic. -/
theorem convertThenExecuteRules_cons (node : Node) (env : Env) (r : Rule)
    (rs : RuleList) (lines : List String) (indent : String) :
    convertThenExecuteRules node env (.cons r rs) lines indent =
      match convertRule node env r lines indent with
      | .error e => .error e
      | .ok lines2 => convertThenExecuteRules node env rs lines2 indent := by
  rw [convertRule_eq_core]
  rfl

/-- Framing of the state passing: every translation function only appends
to the lines array it receives (the source only ever calls lines.push), so
its result on any initial lines list is its result on the empty list,
prefixed with the initial list.  Stated for the record-event translation
here and for the engine functions below. -/
theorem convertThenRecordEvent_frame (node : Node) (env : Env) (ev : String)
    (mp : Mapping) (rule : Rule) (lines : List String) (indent : String) :
    convertThenRecordEvent node env ev mp rule lines indent =
      (convertThenRecordEvent node env ev mp rule [] indent).map (fun d => lines ++ d) := by
  unfold convertThenRecordEvent
  cases env.detectService node with
  | error e => rfl
  | ok service =>
    simp only []
    split
    · rfl
    · cases env.getTargetsOfType node with
      | error e => rfl
      | ok events =>
        simp only []
        split
        · rfl
        · cases convertMapping node env mp rule indent with
          | error e => rfl
          | ok m => rfl

mutual

theorem convertRuleCore_frame (node : Node) (env : Env) (r : Rule)
    (lines : List String) (indent : String) :
    convertRuleCore node env r lines indent =
      (convertRuleCore node env r [] indent).map (fun d => lines ++ d) := by
  cases r with
  | mk k i1 i2 st th =>
    simp only [convertRuleCore]
    split
    · exact convertThenCore_frame node env _ th lines indent
    · cases i1 with
      | some e =>
        simp only []
        rw [convertThenCore_frame node env _ th (lines ++ [_]) _,
            convertThenCore_frame node env _ th ([] ++ [_]) _]
        cases convertThenCore node env (Rule.mk "condition" (some e) i2 st th) th [] (indent ++ "  ") with
        | error er => rfl
        | ok d => cases st <;> simp [Except.map]
      | none =>
        cases i2 with
        | some e =>
          simp only []
          rw [convertThenCore_frame node env _ th (lines ++ [_]) _,
              convertThenCore_frame node env _ th ([] ++ [_]) _]
          cases convertThenCore node env (Rule.mk "condition" none (some e) st th) th [] (indent ++ "  ") with
          | error er => rfl
          | ok d => cases st <;> simp [Except.map]
        | none => rfl
    · rfl
termination_by structural r

theorem convertThenCore_frame (node : Node) (env : Env) (r : Rule) (th : Then)
    (lines : List String) (indent : String) :
    convertThenCore node env r th lines indent =
      (convertThenCore node env r th [] indent).map (fun d => lines ++ d) := by
  cases th with
  | recordEvent ev mp =>
    simp only [convertThenCore]
    exact convertThenRecordEvent_frame node env ev mp r lines indent
  | executeRules rs =>
    simp only [convertThenCore]
    exact convertRulesCore_frame node env rs lines indent
  | unknownThen => rfl
termination_by structural th

theorem convertRulesCore_frame (node : Node) (env : Env) (rs : RuleList)
    (lines : List String) (indent : String) :
    convertRulesCore node env rs lines indent =
      (convertRulesCore node env rs [] indent).map (fun d => lines ++ d) := by
  cases rs with
  | nil => simp [convertRulesCore, Except.map]
  | cons r rs' =>
    simp only [convertRulesCore]
    rw [convertRuleCore_frame node env r lines indent]
    cases convertRuleCore node env r [] indent with
    | error e => rfl
    | ok d =>
      simp only [Except.map]
      rw [convertRulesCore_frame node env rs' (lines ++ d) indent,
          convertRulesCore_frame node env rs' d indent]
      cases convertRulesCore node env rs' [] indent with
      | error e => rfl
      | ok d2 => simp [Except.map]
termination_by structural rs

end

/-- Source level framing: convertRule on any initial lines list is
convertRule on the empty list, prefixed with the initial list. -/
theorem convertRule_frame (node : Node) (env : Env) (r : Rule)
    (lines : List String) (indent : String) :
    convertRule node env r lines indent =
      (convertRule node env r [] indent).map (fun d => lines ++ d) := by
  rw [convertRule_eq_core, convertRule_eq_core]
  exact convertRuleCore_frame node env r lines indent

/-- The top level loop returns the first diagnostic: if every rule of a
prefix translates successfully and the next rule fails with diagnostic e,
the loop returns e, whatever rules follow. -/
theorem convertTopRules_first_error (node : Node) (env : Env) (indent : String) :
    ∀ (pre : List Rule) (r : Rule) (post : List Rule) (e : CodyResponse) (L : List String),
    (∀ r' ∈ pre, ∃ d, convertRule node env r' [] indent = .ok d) →
    convertRule node env r [] indent = .error e →
    convertTopRules node env (RuleList.ofList (pre ++ r :: post)) L indent = .error e := by
  intro pre
  induction pre with
  | nil =>
    intro r post e L _ hr
    simp only [List.nil_append, RuleList.ofList, convertTopRules]
    rw [convertRule_frame, hr]
    rfl
  | cons p pre' ih =>
    intro r post e L hpre hr
    obtain ⟨d, hd⟩ := hpre p (by simp)
    simp only [List.cons_append, RuleList.ofList, convertTopRules]
    rw [convertRule_frame, hd]
    exact ih r post e _ (fun r' h => hpre r' (by simp [h])) hr

/-- Claim C2: compilation is all-or-nothing and fail-fast.  The return type
admits either a generated block or one diagnostic, never both; and whenever
every rule of a prefix translates successfully while the next rule fails
with diagnostic e, compile returns exactly e, the first error in list
order, whatever rules follow it. -/
theorem compile_first_error (node : Node) (env : Env) (vars : List Variable)
    (indent : String) (pre : List Rule) (r : Rule) (post : List Rule) (e : CodyResponse)
    (hpre : ∀ r' ∈ pre, ∃ d, convertRule node env r' [] indent = .ok d)
    (hr : convertRule node env r [] indent = .error e) :
    convertRuleConfigToAggregateBehavior node env (RuleList.ofList (pre ++ r :: post)) vars indent
      = .error e := by
  have h := convertTopRules_first_error node env indent pre r post e
    ((indent ++ "const ctx: any = \x7b\x7d;") ::
      vars.map (fun v => indent ++ "ctx[\x27" ++ v.name ++ "\x27] = " ++ v.initializer ++ ";"))
    hpre hr
  cases pre with
  | nil =>
    simp only [List.nil_append, RuleList.ofList] at h ⊢
    simp only [convertRuleConfigToAggregateBehavior, List.singleton_append]
    rw [h]
  | cons p pre' =>
    simp only [List.cons_append, RuleList.ofList] at h ⊢
    simp only [convertRuleConfigToAggregateBehavior, List.singleton_append]
    rw [h]

/-- Claim C1: for every node, environment and list of initial variables,
compile (convertRuleConfigToAggregateBehavior) with an empty rule list
returns the empty block, a no-op success: no namespace declaration and no
variable assignment is emitted, whatever the initial variables are. -/
theorem compile_empty_rules (aggregate : Node) (env : Env) (vars : List Variable)
    (indent : String) :
    convertRuleConfigToAggregateBehavior aggregate env .nil vars indent = .ok "" := rfl

/-- Claim C3: a condition rule with neither an if nor an if_not condition
makes compile return the structural diagnostic as a typed error value and
no partial block: the cody text carries the raw rule content rendered by
JSON.stringify, and the details name the offending node by its type and
name. -/
theorem compile_condition_missing_both (node : Node) (env : Env) (vars : List Variable)
    (indent : String) (st : Bool) (th : Then) :
    convertRuleConfigToAggregateBehavior node env
        (.cons (Rule.mk "condition" none none st th) .nil) vars indent =
      .error ⟨"I don\x27t know how to handle a condition rule that neither has an \"if\" nor a \"if_not\" condition defined: \""
                ++ env.jsonStringify (Rule.mk "condition" none none st th) ++ "\".",
              .Error,
              "Looks like a mistake on your side. Please check the rules of "
                ++ node.nodeType ++ ": \"" ++ node.name ++ "\""⟩ := rfl

/-- Claim C4, counterexample: the details text of the unknown-kind
diagnostic does not list exactly the recognized kinds always and condition.
At the concrete unknown kind foo the details also advertise validate, and a
rule of kind validate is itself rejected by convertRule, so validate is not
a recognized kind. -/
theorem convertRule_unknown_kind_cex :
    convertRule sampleNode sampleEnv (Rule.mk "foo" none none false .unknownThen) [] "" =
      .error ⟨"I don\x27t know how to handle a rule of type \"foo\".", .Error,
        "Looks like a typo on your side. I can handle the following rule types: always, condition, validate"⟩
    ∧ ∃ e, convertRule sampleNode sampleEnv (Rule.mk "validate" none none false .unknownThen) [] ""
        = .error e :=
  ⟨rfl, ⟨_, rfl⟩⟩

/-- Claim C4, amended: for every rule whose kind is neither always nor
condition, convertRule fails with a diagnostic that quotes the unknown kind
and whose details name the rule types always, condition and validate
(validate is advertised in the message although the dispatch has no case
for it). -/
theorem convertRule_unknown_kind (node : Node) (env : Env) (r : Rule)
    (lines : List String) (indent : String)
    (h1 : r.rule ≠ "always") (h2 : r.rule ≠ "condition") :
    convertRule node env r lines indent =
      .error ⟨"I don\x27t know how to handle a rule of type \"" ++ r.rule ++ "\".", .Error,
        "Looks like a typo on your side. I can handle the following rule types: always, condition, validate"⟩ := by
  unfold convertRule
  split
  · simp_all
  · simp_all
  · rfl

/-- The length test of the source on the dot-split parts is the containment
of the dot character. -/
theorem one_lt_length_splitOn_iff (c : Char) (l : List Char) :
    1 < (l.splitOn c).length ↔ c ∈ l := by
  induction l with
  | nil => simp [List.splitOn, List.splitOnP_nil]
  | cons x xs ih =>
    simp only [List.splitOn] at ih ⊢
    rw [List.splitOnP_cons]
    by_cases hx : (x == c) = true
    · rw [if_pos hx]
      have hne := List.splitOnP_ne_nil (fun a => a == c) xs
      have hpos : 0 < (List.splitOnP (fun a => a == c) xs).length :=
        List.length_pos.mpr hne
      simp only [List.length_cons]
      constructor
      · intro _
        exact List.mem_cons.mpr (Or.inl (beq_iff_eq.mp hx).symm)
      · intro _
        omega
    · rw [if_neg hx]
      rw [List.length_modifyHead]
      rw [ih]
      constructor
      · intro hm
        exact List.mem_cons.mpr (Or.inr hm)
      · intro hm
        rcases List.mem_cons.mp hm with h | h
        · exact absurd (beq_iff_eq.mpr h.symm) hx
        · exact h

/-- The record-event translation fails with the dot diagnostic whenever the
event name contains a dot and the service resolution succeeded. -/
theorem convertThenRecordEvent_dot (node : Node) (env : Env) (ev : String)
    (mp : Mapping) (rule : Rule) (lines : List String) (indent : String)
    (service : String)
    (hs : env.detectService node = .ok service) (hdot : '.' ∈ ev.toList) :
    convertThenRecordEvent node env ev mp rule lines indent =
      .error ⟨"Please don\x27t use a dot in the event name of a record:event rule. I found one in the rule: "
                ++ env.jsonStringify rule ++ " of aggregate \"" ++ node.name ++ "\"",
              .Error,
              "You don\x27t have to provide the full event name including service and aggregate. I\x27m using service \""
                ++ service ++ "\" and aggregate name: \"" ++ node.name ++ "\" for that event."⟩ := by
  unfold convertThenRecordEvent
  rw [hs]
  have hcond : (List.map List.asString (ev.toList.splitOn '.')).length > 1 := by
    rw [List.length_map]
    exact (one_lt_length_splitOn_iff '.' ev.toList).mpr hdot
  simp only [hcond, if_true, gt_iff_lt]

/-- The record-event translation propagates a failing service resolution. -/
theorem convertThenRecordEvent_detect_error (node : Node) (env : Env) (ev : String)
    (mp : Mapping) (rule : Rule) (lines : List String) (indent : String)
    (e0 : CodyResponse) (hs : env.detectService node = .error e0) :
    convertThenRecordEvent node env ev mp rule lines indent = .error e0 := by
  unfold convertThenRecordEvent
  rw [hs]

/-- Claim C5: for every recordEvent action whose event name contains the
qualifier separator (a dot), compile fails, regardless of the declared
event targets of the aggregate: the targets lookup is not consulted, the
theorem holds for every environment.  Whenever the service resolution
succeeds, the diagnostic is the one explaining that only the bare event
name is expected. -/
theorem compile_recordEvent_dotted_name (node : Node) (env : Env) (ev : String)
    (mp : Mapping) (i1 i2 : Option String) (st : Bool) (vars : List Variable)
    (indent : String) (hdot : '.' ∈ ev.toList) :
    (∃ e, convertRuleConfigToAggregateBehavior node env
        (.cons (Rule.mk "always" i1 i2 st (.recordEvent ev mp)) .nil) vars indent = .error e)
    ∧ (∀ service, env.detectService node = .ok service →
        convertRuleConfigToAggregateBehavior node env
            (.cons (Rule.mk "always" i1 i2 st (.recordEvent ev mp)) .nil) vars indent =
          .error ⟨"Please don\x27t use a dot in the event name of a record:event rule. I found one in the rule: "
                    ++ env.jsonStringify (Rule.mk "always" i1 i2 st (.recordEvent ev mp))
                    ++ " of aggregate \"" ++ node.name ++ "\"",
                  .Error,
                  "You don\x27t have to provide the full event name including service and aggregate. I\x27m using service \""
                    ++ service ++ "\" and aggregate name: \"" ++ node.name ++ "\" for that event."⟩) := by
  have hrw : ∀ L : List String,
      convertRule node env (Rule.mk "always" i1 i2 st (.recordEvent ev mp)) L indent =
        convertThenRecordEvent node env ev mp (Rule.mk "always" i1 i2 st (.recordEvent ev mp)) L indent :=
    fun _ => rfl
  have h2 : ∀ service, env.detectService node = .ok service →
      convertRuleConfigToAggregateBehavior node env
          (.cons (Rule.mk "always" i1 i2 st (.recordEvent ev mp)) .nil) vars indent =
        .error ⟨"Please don\x27t use a dot in the event name of a record:event rule. I found one in the rule: "
                  ++ env.jsonStringify (Rule.mk "always" i1 i2 st (.recordEvent ev mp))
                  ++ " of aggregate \"" ++ node.name ++ "\"",
                .Error,
                "You don\x27t have to provide the full event name including service and aggregate. I\x27m using service \""
                  ++ service ++ "\" and aggregate name: \"" ++ node.name ++ "\" for that event."⟩ := by
    intro service hs
    simp only [convertRuleConfigToAggregateBehavior, convertTopRules, List.singleton_append]
    rw [hrw, convertThenRecordEvent_dot node env ev mp _ _ indent service hs hdot]
  refine ⟨?_, h2⟩
  cases hds : env.detectService node with
  | error e0 =>
    refine ⟨e0, ?_⟩
    simp only [convertRuleConfigToAggregateBehavior, convertTopRules, List.singleton_append]
    rw [hrw, convertThenRecordEvent_detect_error node env ev mp _ _ indent e0 hds]
  | ok service => exact ⟨_, h2 service hds⟩

/-- The mapping translation never fails. -/
theorem convertMapping_ok (node : Node) (env : Env) (mp : Mapping) (rule : Rule)
    (indent : String) : ∃ m, convertMapping node env mp rule indent = .ok m := by
  cases mp with
  | expr s => exact ⟨_, rfl⟩
  | props entries => exact ⟨_, rfl⟩

/-- Claim C6: the named event of a recordEvent action is checked against
the declared outgoing event targets of the aggregate by className
comparison of the derived identifier forms, not by raw string comparison:
the not-known diagnostic is returned precisely when no declared target
matches under that comparison, and a matching target makes the same input
succeed with the emitted yield line. -/
theorem recordEvent_event_check_by_className (node : Node) (env : Env) (ev : String)
    (mp : Mapping) (rule : Rule) (lines : List String) (indent : String)
    (service : String) (events : List Node)
    (hs : env.detectService node = .ok service)
    (hnd : '.' ∉ ev.toList)
    (ht : env.getTargetsOfType node = .ok events) :
    (convertThenRecordEvent node env ev mp rule lines indent =
        .error ⟨"The event \"" ++ ev ++ "\" specified in the rule: "
                  ++ env.jsonStringify rule ++ " of aggregate \"" ++ node.name
                  ++ "\" is not known for that aggregate",
                .Error,
                "An aggregate can only record events that are connected to it with an arrow pointing from the aggregate to the event."⟩
      ↔ ∀ evt ∈ events, (env.names evt.name).className ≠ (env.names ev).className)
    ∧ ((∃ evt ∈ events, (env.names evt.name).className = (env.names ev).className) →
        ∃ m, convertMapping node env mp rule indent = .ok m ∧
          convertThenRecordEvent node env ev mp rule lines indent =
            .ok (lines ++ [indent ++ "yield " ++ (env.names ev).propertyName ++ "(" ++ m ++ ");"])) := by
  unfold convertThenRecordEvent
  rw [hs]
  have hcond : ¬ ((List.map List.asString (ev.toList.splitOn '.')).length > 1) := by
    rw [List.length_map, gt_iff_lt, one_lt_length_splitOn_iff]
    exact hnd
  simp only [gt_iff_lt]
  rw [if_neg hcond, ht]
  by_cases hb : (events.any fun evt => (env.names evt.name).className == (env.names ev).className) = true
  · obtain ⟨m, hm⟩ := convertMapping_ok node env mp rule indent
    simp only [hb, Bool.not_true, Bool.false_eq_true, if_false, hm]
    constructor
    · constructor
      · intro habs
        exact absurd habs (by simp)
      · intro hall
        rw [List.any_eq_true] at hb
        obtain ⟨evt, hmem, hcl⟩ := hb
        exact absurd (beq_iff_eq.mp hcl) (hall evt hmem)
    · intro _
      exact ⟨m, rfl, rfl⟩
  · have hb' : (!(events.any fun evt => (env.names evt.name).className == (env.names ev).className)) = true := by
      simp [hb]
    simp only [hb', if_true]
    constructor
    · constructor
      · intro _ evt hmem hcl
        exact hb (List.any_eq_true.mpr ⟨evt, hmem, beq_iff_eq.mpr hcl⟩)
      · intro _
        trivial
    · rintro ⟨evt, hmem, hcl⟩
      exact absurd ((@List.any_eq_true Node
        (fun evt => (env.names evt.name).className == (env.names ev).className) events).mpr
          ⟨evt, hmem, beq_iff_eq.mpr hcl⟩) hb

/-- Merging the two string literals of the emitted if-head: the source
writes the head as indent, polarity text, open parenthesis, wrapped
expression; the concatenation equals the head with the doubled open
parenthesis written as one literal. -/
theorem head_if_merge (a s : String) : a ++ "if (" ++ "(" ++ s = a ++ "if ((" ++ s := by
  rw [String.append_assoc a "if (" "("]
  rfl

/-- Merging the two string literals of the emitted negated if-head. -/
theorem head_ifnot_merge (a s : String) : a ++ "if (!" ++ "(" ++ s = a ++ "if (!(" ++ s := by
  rw [String.append_assoc a "if (!" "("]
  rfl

/-- Claim C7: a condition rule with stop true that translates successfully
emits return as the last statement of the conditional body, after the
translated then part and immediately before the closing brace; for stop
false no return is emitted.  Both polarities, if and if_not, are covered. -/
theorem condition_stop_emits_return :
    (∀ (node : Node) (env : Env) (e : String) (i2 : Option String) (st : Bool) (th : Then)
       (lines bodyLines : List String) (indent : String),
      convertThen node env (Rule.mk "condition" (some e) i2 st th)
          (lines ++ [indent ++ "if ((" ++ wrapExpression e ++ ")) \x7b"]) (indent ++ "  ")
        = .ok bodyLines →
      convertRule node env (Rule.mk "condition" (some e) i2 st th) lines indent =
        .ok (bodyLines ++ (if st then [indent ++ "  return;"] else []) ++ [indent ++ "\x7d"]))
    ∧ (∀ (node : Node) (env : Env) (e : String) (st : Bool) (th : Then)
       (lines bodyLines : List String) (indent : String),
      convertThen node env (Rule.mk "condition" none (some e) st th)
          (lines ++ [indent ++ "if (!(" ++ wrapExpression e ++ ")) \x7b"]) (indent ++ "  ")
        = .ok bodyLines →
      convertRule node env (Rule.mk "condition" none (some e) st th) lines indent =
        .ok (bodyLines ++ (if st then [indent ++ "  return;"] else []) ++ [indent ++ "\x7d"])) := by
  constructor
  · intro node env e i2 st th lines bodyLines indent h
    show convertConditionRule node env (Rule.mk "condition" (some e) i2 st th) lines indent = _
    unfold convertConditionRule
    simp only [Rule.ifExpr, Rule.ifNotExpr, Rule.stop]
    rw [head_if_merge, h]
    cases st <;> simp [List.append_assoc]
  · intro node env e st th lines bodyLines indent h
    show convertConditionRule node env (Rule.mk "condition" none (some e) st th) lines indent = _
    unfold convertConditionRule
    simp only [Rule.ifExpr, Rule.ifNotExpr, Rule.stop]
    rw [head_ifnot_merge, h]
    cases st <;> simp [List.append_assoc]

/-- Claim C8: a condition rule whose then part executes the nested rules R1
and R2 emits, inside the conditional body, the full translation of R1
followed by the full translation of R2, in that order, with no
interleaving; the nested rules are translated by the same recursive
convertRule dispatch as the top level list. -/
theorem condition_executeRules_in_order (node : Node) (env : Env) (E : String)
    (R1 R2 : Rule) (i2 : Option String) (st : Bool) (lines d1 d2 : List String)
    (indent : String)
    (h1 : convertRule node env R1 [] (indent ++ "  ") = .ok d1)
    (h2 : convertRule node env R2 [] (indent ++ "  ") = .ok d2) :
    convertRule node env
        (Rule.mk "condition" (some E) i2 st (.executeRules (.cons R1 (.cons R2 .nil))))
        lines indent =
      .ok (lines ++ [indent ++ "if ((" ++ wrapExpression E ++ ")) \x7b"] ++ d1 ++ d2
           ++ (if st then [indent ++ "  return;"] else []) ++ [indent ++ "\x7d"]) := by
  have e1 : ∀ L, convertRule node env R1 L (indent ++ "  ") = .ok (L ++ d1) := by
    intro L; rw [convertRule_frame, h1]; rfl
  have e2 : ∀ L, convertRule node env R2 L (indent ++ "  ") = .ok (L ++ d2) := by
    intro L; rw [convertRule_frame, h2]; rfl
  show convertConditionRule node env
      (Rule.mk "condition" (some E) i2 st (.executeRules (.cons R1 (.cons R2 .nil))))
      lines indent = _
  unfold convertConditionRule
  simp only [Rule.ifExpr, Rule.ifNotExpr, Rule.stop]
  rw [head_if_merge]
  rw [show ∀ L, convertThen node env
        (Rule.mk "condition" (some E) i2 st (.executeRules (.cons R1 (.cons R2 .nil)))) L
        (indent ++ "  ")
      = convertThenExecuteRules node env (.cons R1 (.cons R2 .nil)) L (indent ++ "  ")
    from fun L => rfl]
  rw [convertThenExecuteRules_cons, e1]
  simp only []
  rw [convertThenExecuteRules_cons, e2]
  simp only []
  rw [show ∀ L, convertThenExecuteRules node env .nil L (indent ++ "  ") = .ok L
    from fun L => rfl]
  cases st <;> simp [List.append_assoc]

/-- Shifting a prefix out of a string foldl over append. -/
theorem string_foldl_append_shift :
    ∀ (l : List String) (a b : String),
      l.foldl (fun r s => r ++ s) (a ++ b) = a ++ l.foldl (fun r s => r ++ s) b := by
  intro l
  induction l with
  | nil => intro a b; rfl
  | cons x xs ih =>
    intro a b
    simp only [List.foldl]
    rw [String.append_assoc]
    exact ih a (b ++ x)

/-- String.join of a cons. -/
theorem string_join_cons (x : String) (l : List String) :
    String.join (x :: l) = x ++ String.join l := by
  simp only [String.join, List.foldl, String.empty_append]
  rw [← string_foldl_append_shift l x ""]
  rw [String.append_empty]

/-- A left fold appending one rendered entry per element equals the initial
string followed by the join of the rendered entries, in order. -/
theorem foldl_append_eq_join {α : Type} (g : α → String) :
    ∀ (l : List α) (a : String),
      l.foldl (fun acc p => acc ++ g p) a = a ++ String.join (l.map g) := by
  intro l
  induction l with
  | nil =>
    intro a
    show a = a ++ String.join []
    rw [show String.join [] = "" from rfl, String.append_empty]
  | cons x xs ih =>
    intro a
    simp only [List.foldl, List.map]
    rw [ih (a ++ g x), string_join_cons, ← String.append_assoc]

/-- Claim C9: mapping translation is structure preserving.  A single-string
mapping emits exactly one wrapped asynchronous-evaluation expression with
no enclosing object structure; an object mapping emits one entry per input
field, in declaration order, with the field name unchanged and the value
wrapped as the asynchronous evaluation of the field expression against the
namespace. -/
theorem convertMapping_structure :
    (∀ (node : Node) (env : Env) (rule : Rule) (indent s : String),
      convertMapping node env (.expr s) rule indent = .ok (wrapExpression s)
        ∧ wrapExpression s = "await jexl.eval(\"" ++ s ++ "\", ctx)")
    ∧ (∀ (node : Node) (env : Env) (rule : Rule) (indent : String)
         (entries : List (String × String)),
      convertMapping node env (.props entries) rule indent =
        .ok ("\x7b\n"
             ++ String.join (entries.map
                  (fun p => indent ++ "  \"" ++ p.1 ++ "\": " ++ wrapExpression p.2 ++ ",\n"))
             ++ indent ++ "\x7d")) := by
  constructor
  · intro node env rule indent s
    exact ⟨rfl, rfl⟩
  · intro node env rule indent entries
    show Except.ok (entries.foldl
        (fun acc p => acc ++ indent ++ "  \"" ++ p.1 ++ "\": " ++ wrapExpression p.2 ++ ",\n")
        "\x7b\n" ++ indent ++ "\x7d") = _
    have hfun : (fun (acc : String) (p : String × String) =>
          acc ++ indent ++ "  \"" ++ p.1 ++ "\": " ++ wrapExpression p.2 ++ ",\n")
        = (fun (acc : String) (p : String × String) =>
          acc ++ (indent ++ "  \"" ++ p.1 ++ "\": " ++ wrapExpression p.2 ++ ",\n")) := by
      funext acc p
      simp [String.append_assoc]
    rw [hfun]
    rw [foldl_append_eq_join
      (fun p : String × String => indent ++ "  \"" ++ p.1 ++ "\": " ++ wrapExpression p.2 ++ ",\n")
      entries ("\x7b\n")]

/-- The top level loop only appends: a successful run extends the incoming
lines list. -/
theorem convertTopRules_ok_extends (node : Node) (env : Env) (rules : RuleList) :
    ∀ (L : List String) (indent : String) (out : List String),
    convertTopRules node env rules L indent = .ok out → ∃ d, out = L ++ d := by
  cases rules with
  | nil =>
    intro L indent out h
    simp only [convertTopRules] at h
    exact ⟨[], by simp [← Except.ok.injEq L out |>.mp h]⟩
  | cons r rs =>
    intro L indent out h
    simp only [convertTopRules] at h
    cases hrr : convertRule node env r [] indent with
    | error e =>
      rw [convertRule_frame, hrr] at h
      simp only [Except.map] at h
      simp at h
    | ok d1 =>
      rw [convertRule_frame, hrr] at h
      simp only [Except.map] at h
      obtain ⟨d2, hd2⟩ := convertTopRules_ok_extends node env rs ((L ++ [""]) ++ d1) indent out h
      exact ⟨[""] ++ d1 ++ d2, by simp [hd2, List.append_assoc]⟩
termination_by structural rules

/-- Claim C10: initial variable initializers are spliced verbatim into the
generated assignments on the ctx namespace, not wrapped in the asynchronous
expression evaluator; every if condition expression and every mapping
expression is wrapped as an awaited jexl evaluation against ctx, so
variable initializers run as raw target language code while conditions and
mappings run in the expression language. -/
theorem compile_variables_verbatim_expressions_wrapped :
    (∀ (node : Node) (env : Env) (vars : List Variable) (indent : String) (r : Rule)
       (rs : RuleList) (s : String),
      convertRuleConfigToAggregateBehavior node env (.cons r rs) vars indent = .ok s →
      ∃ rest, s = String.intercalate "\n"
        ((indent ++ "const ctx: any = \x7b\x7d;")
          :: (vars.map (fun v => indent ++ "ctx[\x27" ++ v.name ++ "\x27] = " ++ v.initializer ++ ";")
              ++ rest)))
    ∧ (∀ e : String, wrapExpression e = "await jexl.eval(\"" ++ e ++ "\", ctx)")
    ∧ (∀ (node : Node) (env : Env) (e : String) (i2 : Option String) (st : Bool) (th : Then)
        (lines out : List String) (indent : String),
      convertRule node env (Rule.mk "condition" (some e) i2 st th) lines indent = .ok out →
      ∃ tail, out = lines ++ [indent ++ "if ((" ++ wrapExpression e ++ ")) \x7b"] ++ tail)
    ∧ (∀ (node : Node) (env : Env) (rule : Rule) (indent m : String),
      convertMapping node env (.expr m) rule indent = .ok (wrapExpression m)) := by
  refine ⟨?_, fun _ => rfl, ?_, fun _ _ _ _ _ => rfl⟩
  · intro node env vars indent r rs s h
    simp only [convertRuleConfigToAggregateBehavior, List.singleton_append] at h
    cases ht : convertTopRules node env (.cons r rs)
        ((indent ++ "const ctx: any = \x7b\x7d;")
          :: vars.map (fun v => indent ++ "ctx[\x27" ++ v.name ++ "\x27] = " ++ v.initializer ++ ";"))
        indent with
    | error e => rw [ht] at h; cases h
    | ok ls =>
      rw [ht] at h
      obtain ⟨d, hd⟩ := convertTopRules_ok_extends node env (.cons r rs) _ indent ls ht
      refine ⟨d ++ [""], ?_⟩
      have hs : s = String.intercalate "\n" (ls ++ [""]) := (Except.ok.injEq _ _).mp h.symm
      rw [hs, hd]
      simp [List.append_assoc]
  · intro node env e i2 st th lines out indent h
    have hframe : ∀ L, convertThen node env (Rule.mk "condition" (some e) i2 st th) L (indent ++ "  ")
        = (convertThen node env (Rule.mk "condition" (some e) i2 st th) [] (indent ++ "  ")).map
            (fun d => L ++ d) := by
      intro L
      rw [convertThen_eq_core, convertThen_eq_core]
      exact convertThenCore_frame node env _ th L (indent ++ "  ")
    rw [show convertRule node env (Rule.mk "condition" (some e) i2 st th) lines indent
        = convertConditionRule node env (Rule.mk "condition" (some e) i2 st th) lines indent
      from rfl] at h
    unfold convertConditionRule at h
    simp only [Rule.ifExpr, Rule.ifNotExpr, Rule.stop] at h
    rw [head_if_merge] at h
    rw [hframe] at h
    cases hb : convertThen node env (Rule.mk "condition" (some e) i2 st th) [] (indent ++ "  ") with
    | error er =>
      rw [hb] at h
      simp only [Except.map] at h
      simp at h
    | ok d =>
      rw [hb] at h
      simp only [Except.map] at h
      refine ⟨d ++ (if st then [indent ++ "  return;"] else []) ++ [indent ++ "\x7d"], ?_⟩
      rw [← (Except.ok.injEq _ _).mp h]
      cases st <;> simp [List.append_assoc]

/-- Witness for claim C2: the hypotheses hold at a concrete input and
the theorem applies there. -/
theorem compile_first_error_witness :
    (∀ r' ∈ [Rule.mk "always" none none false (.executeRules .nil)],
      ∃ d, convertRule sampleNode sampleEnv r' [] "  " = .ok d)
    ∧ convertRule sampleNode sampleEnv (Rule.mk "oops" none none false .unknownThen) [] "  "
        = .error ⟨"I don\x27t know how to handle a rule of type \"oops\".", .Error,
            "Looks like a typo on your side. I can handle the following rule types: always, condition, validate"⟩
    ∧ convertRuleConfigToAggregateBehavior sampleNode sampleEnv
        (RuleList.ofList ([Rule.mk "always" none none false (.executeRules .nil)]
          ++ Rule.mk "oops" none none false .unknownThen
            :: [Rule.mk "always" none none false (.executeRules .nil)]))
        [⟨"a", "1"⟩] "  "
        = .error ⟨"I don\x27t know how to handle a rule of type \"oops\".", .Error,
            "Looks like a typo on your side. I can handle the following rule types: always, condition, validate"⟩ := by
  have hpre : ∀ r' ∈ [Rule.mk "always" none none false (.executeRules .nil)],
      ∃ d, convertRule sampleNode sampleEnv r' [] "  " = .ok d := by
    intro r' hr'
    simp only [List.mem_singleton] at hr'
    subst hr'
    exact ⟨[], rfl⟩
  exact ⟨hpre, rfl,
    compile_first_error sampleNode sampleEnv [⟨"a", "1"⟩] "  "
      [Rule.mk "always" none none false (.executeRules .nil)]
      (Rule.mk "oops" none none false .unknownThen)
      [Rule.mk "always" none none false (.executeRules .nil)] _ hpre rfl⟩

/-- Witness for claim C4: the hypotheses hold at a concrete input and
the theorem applies there. -/
theorem convertRule_unknown_kind_witness :
    (Rule.mk "typo" none none false Then.unknownThen).rule ≠ "always"
    ∧ (Rule.mk "typo" none none false Then.unknownThen).rule ≠ "condition"
    ∧ convertRule sampleNode sampleEnv (Rule.mk "typo" none none false .unknownThen) ["x"] " "
        = .error ⟨"I don\x27t know how to handle a rule of type \"typo\".", .Error,
            "Looks like a typo on your side. I can handle the following rule types: always, condition, validate"⟩ :=
  ⟨by decide, by decide,
    convertRule_unknown_kind sampleNode sampleEnv
      (Rule.mk "typo" none none false .unknownThen) ["x"] " " (by decide) (by decide)⟩

/-- Witness for claim C5: the hypotheses hold at a concrete input and
the theorem applies there. -/
theorem compile_recordEvent_dotted_name_witness :
    ('.' ∈ "Foo.Bar".toList)
    ∧ (∃ e, convertRuleConfigToAggregateBehavior sampleNode sampleEnv
        (.cons (Rule.mk "always" none none false (.recordEvent "Foo.Bar" (.expr "m"))) .nil)
        [] "  " = .error e)
    ∧ convertRuleConfigToAggregateBehavior sampleNode sampleEnv
        (.cons (Rule.mk "always" none none false (.recordEvent "Foo.Bar" (.expr "m"))) .nil)
        [] "  "
      = .error ⟨"Please don\x27t use a dot in the event name of a record:event rule. I found one in the rule: <rule> of aggregate \"User\"",
          .Error,
          "You don\x27t have to provide the full event name including service and aggregate. I\x27m using service \"CrmService\" and aggregate name: \"User\" for that event."⟩ :=
  ⟨by decide,
    (compile_recordEvent_dotted_name sampleNode sampleEnv "Foo.Bar" (.expr "m")
      none none false [] "  " (by decide)).1,
    (compile_recordEvent_dotted_name sampleNode sampleEnv "Foo.Bar" (.expr "m")
      none none false [] "  " (by decide)).2 "CrmService" rfl⟩

/-- Witness for claim C6: the hypotheses hold at a concrete input and
the theorem applies there. -/
theorem recordEvent_event_check_witness :
    sampleEnv.detectService sampleNode = .ok "CrmService"
    ∧ ('.' ∉ "Unknown".toList)
    ∧ sampleEnv.getTargetsOfType sampleNode = .ok [⟨"UserRegistered", "event"⟩]
    ∧ convertThenRecordEvent sampleNode sampleEnv "Unknown" (.expr "m")
        (Rule.mk "always" none none false (.recordEvent "Unknown" (.expr "m"))) [] "  "
      = .error ⟨"The event \"Unknown\" specified in the rule: <rule> of aggregate \"User\" is not known for that aggregate",
          .Error,
          "An aggregate can only record events that are connected to it with an arrow pointing from the aggregate to the event."⟩
    ∧ (∃ m, convertMapping sampleNode sampleEnv (.expr "m")
          (Rule.mk "always" none none false (.recordEvent "UserRegistered" (.expr "m"))) "  " = .ok m ∧
        convertThenRecordEvent sampleNode sampleEnv "UserRegistered" (.expr "m")
          (Rule.mk "always" none none false (.recordEvent "UserRegistered" (.expr "m"))) [] "  "
          = .ok ([] ++ ["  " ++ "yield " ++ (sampleEnv.names "UserRegistered").propertyName
                  ++ "(" ++ m ++ ");"])) := by
  refine ⟨rfl, by decide, rfl, ?_, ?_⟩
  · exact (recordEvent_event_check_by_className sampleNode sampleEnv "Unknown" (.expr "m")
      (Rule.mk "always" none none false (.recordEvent "Unknown" (.expr "m"))) [] "  "
      "CrmService" [⟨"UserRegistered", "event"⟩] rfl (by decide) rfl).1.mpr (by decide)
  · exact (recordEvent_event_check_by_className sampleNode sampleEnv "UserRegistered" (.expr "m")
      (Rule.mk "always" none none false (.recordEvent "UserRegistered" (.expr "m"))) [] "  "
      "CrmService" [⟨"UserRegistered", "event"⟩] rfl (by decide) rfl).2
      ⟨⟨"UserRegistered", "event"⟩, by simp, rfl⟩

/-- Witness for claim C7: the hypotheses hold at a concrete input and
the theorem applies there. -/
theorem condition_stop_emits_return_witness :
    convertThen sampleNode sampleEnv (Rule.mk "condition" (some "c") none true (.executeRules .nil))
        ([] ++ ["  " ++ "if ((" ++ wrapExpression "c" ++ ")) \x7b"]) ("  " ++ "  ")
      = .ok ["  if ((await jexl.eval(\"c\", ctx))) \x7b"]
    ∧ convertRule sampleNode sampleEnv
        (Rule.mk "condition" (some "c") none true (.executeRules .nil)) [] "  "
      = .ok ["  if ((await jexl.eval(\"c\", ctx))) \x7b", "    return;", "  \x7d"] :=
  ⟨rfl, condition_stop_emits_return.1 sampleNode sampleEnv "c" none true (.executeRules .nil)
    [] ["  if ((await jexl.eval(\"c\", ctx))) \x7b"] "  " rfl⟩

/-- Witness for claim C8: the hypotheses hold at a concrete input and
the theorem applies there. -/
theorem condition_executeRules_in_order_witness :
    convertRule sampleNode sampleEnv
        (Rule.mk "always" none none false (.recordEvent "UserRegistered" (.expr "m1"))) [] ("  " ++ "  ")
      = .ok ["    yield UserRegistered(await jexl.eval(\"m1\", ctx));"]
    ∧ convertRule sampleNode sampleEnv
        (Rule.mk "always" none none false (.recordEvent "UserRegistered" (.expr "m2"))) [] ("  " ++ "  ")
      = .ok ["    yield UserRegistered(await jexl.eval(\"m2\", ctx));"]
    ∧ convertRule sampleNode sampleEnv
        (Rule.mk "condition" (some "c") none false
          (.executeRules (.cons (Rule.mk "always" none none false (.recordEvent "UserRegistered" (.expr "m1")))
            (.cons (Rule.mk "always" none none false (.recordEvent "UserRegistered" (.expr "m2"))) .nil))))
        [] "  "
      = .ok ["  if ((await jexl.eval(\"c\", ctx))) \x7b",
             "    yield UserRegistered(await jexl.eval(\"m1\", ctx));",
             "    yield UserRegistered(await jexl.eval(\"m2\", ctx));",
             "  \x7d"] :=
  ⟨rfl, rfl,
    condition_executeRules_in_order sampleNode sampleEnv "c"
      (Rule.mk "always" none none false (.recordEvent "UserRegistered" (.expr "m1")))
      (Rule.mk "always" none none false (.recordEvent "UserRegistered" (.expr "m2")))
      none false []
      ["    yield UserRegistered(await jexl.eval(\"m1\", ctx));"]
      ["    yield UserRegistered(await jexl.eval(\"m2\", ctx));"]
      "  " rfl rfl⟩

/-- Witness for claim C10: the hypotheses hold at a concrete input and
the theorem applies there. -/
theorem compile_variables_verbatim_witness :
    convertRuleConfigToAggregateBehavior sampleNode sampleEnv
        (.cons (Rule.mk "always" none none false (.executeRules .nil)) .nil)
        [⟨"count", "0"⟩] "  "
      = .ok "  const ctx: any = \x7b\x7d;\n  ctx[\x27count\x27] = 0;\n\n"
    ∧ (∃ rest, "  const ctx: any = \x7b\x7d;\n  ctx[\x27count\x27] = 0;\n\n"
        = String.intercalate "\n"
          (("  " ++ "const ctx: any = \x7b\x7d;")
            :: ([⟨"count", "0"⟩].map (fun v : Variable =>
                  "  " ++ "ctx[\x27" ++ v.name ++ "\x27] = " ++ v.initializer ++ ";")
                ++ rest)))
    ∧ convertRule sampleNode sampleEnv
        (Rule.mk "condition" (some "c") none false (.executeRules .nil)) [] "  "
      = .ok ["  if ((await jexl.eval(\"c\", ctx))) \x7b", "  \x7d"]
    ∧ (∃ tail, (["  if ((await jexl.eval(\"c\", ctx))) \x7b", "  \x7d"] : List String)
        = [] ++ ["  " ++ "if ((" ++ wrapExpression "c" ++ ")) \x7b"] ++ tail)
    ∧ convertMapping sampleNode sampleEnv (.expr "m")
        (Rule.mk "always" none none false (.recordEvent "UserRegistered" (.expr "m"))) "  "
      = .ok (wrapExpression "m") := by
  refine ⟨rfl, ?_, rfl, ?_, ?_⟩
  · exact compile_variables_verbatim_expressions_wrapped.1 sampleNode sampleEnv
      [⟨"count", "0"⟩] "  " (Rule.mk "always" none none false (.executeRules .nil)) .nil _ rfl
  · exact compile_variables_verbatim_expressions_wrapped.2.2.1 sampleNode sampleEnv
      "c" none false (.executeRules .nil) [] _ "  " rfl
  · exact compile_variables_verbatim_expressions_wrapped.2.2.2 sampleNode sampleEnv
      (Rule.mk "always" none none false (.recordEvent "UserRegistered" (.expr "m"))) "  " "m"

end RuleEngine
